import Mathlib

/-!
Verification of the Arduino-Scheduler engine (Scheduler.cpp / Scheduler.h).

The C++ code is an intrusive circular doubly-linked list of `SchedulerChore`
records, with the `Scheduler` object itself acting as the sentinel node.
We embed it shallowly: chore objects live in a heap `Nat → Chore`, the C++
pointers `m_next` / `m_prev` / `m_parent` become `Option Nat` (with `none`
standing for the null pointer), and every member function of the source is
translated statement by statement, in source order.  A read or write through
a null pointer is undefined behaviour in the source; the embedding makes it
an explicit `ub` outcome that carries the heap as it stood when the fault
happened (all writes executed before the fault are visible in that heap).
Loops whose C++ form is unbounded (`while (1)` in `RunScheduler`, the scan
in `Insert`, the scan in `TimerWrap::Run`) take an explicit fuel argument;
exhausting the fuel is the distinct outcome `nofuel`, so divergence and
termination are distinguishable.

The virtual `SchedulerChore::Run` has no scheduler-visible effect for
ordinary chores (e.g. the LED flasher example only toggles a pin); the
dispatch interpreter therefore records the invocation in a log and leaves
the heap unchanged.  The one in-repo override with a scheduler-visible
effect, `TimerWrap::Run`, is embedded separately as `timerWrapRun`.
-/

namespace ArduinoSched

/-- 2^32, the modulus of the `uint32_t` arithmetic used throughout. -/
def U32 : Nat := 4294967296

/-- The constant `0x40000000` used by `TimerWrap`. -/
def WRAPC : Nat := 1073741824

/-- The mask `0x3fffffff` applied by `TimerWrap::Run`. -/
def MASK30 : Nat := 1073741823

/-- The mask `0x0fffffff` applied to chore intervals. -/
def MASK28 : Nat := 268435455

/-- One `SchedulerChore` record: `m_parent`, `m_targetTime`, `m_interval`,
`m_next`, `m_prev`.  Pointers are `Option Nat` (heap address or null). -/
structure Chore where
  parent : Option Nat
  targetTime : Nat
  interval : Nat
  next : Option Nat
  prev : Option Nat
deriving Repr, DecidableEq

/-- The heap: every address holds a chore record. -/
def Heap := Nat → Chore

/-- Write the `m_next` field of the chore at address `i`. -/
def setNext (h : Heap) (i : Nat) (v : Option Nat) : Heap :=
  fun j => if j = i then { h i with next := v } else h j

/-- Write the `m_prev` field of the chore at address `i`. -/
def setPrev (h : Heap) (i : Nat) (v : Option Nat) : Heap :=
  fun j => if j = i then { h i with prev := v } else h j

/-- Write the `m_parent` field of the chore at address `i`. -/
def setParent (h : Heap) (i : Nat) (v : Option Nat) : Heap :=
  fun j => if j = i then { h i with parent := v } else h j

/-- Write the `m_targetTime` field of the chore at address `i`. -/
def setTarget (h : Heap) (i : Nat) (v : Nat) : Heap :=
  fun j => if j = i then { h i with targetTime := v } else h j

/-- `uint32_t` subtraction `a - b` (wrapping modulo 2^32). -/
def sub32 (a b : Nat) : Nat := (a + (U32 - b % U32)) % U32

/-- Reinterpret a `uint32_t` value as `int32_t`, as the initialisation
`int32_t delta (this->m_next->m_targetTime - GetCurrentTime())` does. -/
def toInt32 (x : Nat) : Int :=
  if x % U32 < 2147483648 then (x % U32 : Int) else (x % U32 : Int) - (U32 : Int)

/-- Outcome of a straight-line pointer manipulation: normal completion, or
undefined behaviour (null dereference), each carrying the heap reached. -/
inductive XRes where
  | ok (h : Heap)
  | ub (h : Heap)

/-- `SchedulerChore::InsertBefore(c)` with receiver `self` and argument `c`:
`c->m_next = this; c->m_prev = this->m_prev; this->m_prev->m_next = c;
this->m_prev = c;`.  Note the source links the argument in before the
receiver; if the receiver's `m_prev` is null the third statement faults. -/
def insertBefore (self c : Nat) (h : Heap) : XRes :=
  let h1 := setNext h c (some self)
  let h2 := setPrev h1 c ((h1 self).prev)
  match (h2 self).prev with
  | none => .ub h2
  | some p =>
    let h3 := setNext h2 p (some c)
    .ok (setPrev h3 self (some c))

/-- `SchedulerChore::Remove()`: `m_prev->m_next = this->m_next;
m_next->m_prev = this->m_prev; m_next = 0; m_prev = 0;`. -/
def remove (self : Nat) (h : Heap) : XRes :=
  match (h self).prev with
  | none => .ub h
  | some p =>
    let h1 := setNext h p ((h self).next)
    match (h1 self).next with
    | none => .ub h1
    | some nx =>
      let h2 := setPrev h1 nx ((h1 self).prev)
      let h3 := setNext h2 self none
      .ok (setPrev h3 self none)

/-- Outcome of an operation containing a scan loop: normal completion,
undefined behaviour, or fuel exhaustion (potential divergence). -/
inductive IRes where
  | ok (h : Heap)
  | ub (h : Heap)
  | nofuel (h : Heap)

/-- The scan loop of `Scheduler::Insert`:
`for (ptr = m_next; ptr != this; ptr = ptr->m_next) { if (*chore < *ptr)
{ chore->InsertBefore (ptr); } } if (ptr == this) { chore->InsertBefore (this); }`.
There is no `break`: after an insertion the scan keeps going, and the loop
can only exit with `ptr == this`, so the tail insertion always runs too.
A null `ptr` is dereferenced by `*chore < *ptr`. -/
def insertLoop (sid cid : Nat) : Nat → Option Nat → Heap → IRes
  | 0, _, h => .nofuel h
  | _ + 1, none, h => .ub h
  | f + 1, some p, h =>
    if p = sid then
      match insertBefore cid sid h with
      | .ub h2 => .ub h2
      | .ok h2 => .ok h2
    else
      if (h cid).targetTime < (h p).targetTime then
        match insertBefore cid p h with
        | .ub h2 => .ub h2
        | .ok h2 => insertLoop sid cid f ((h2 p).next) h2
      else
        insertLoop sid cid f ((h p).next) h

/-- `Scheduler::Insert(chore)`: `chore->m_parent = this;` then the scan. -/
def insert (sid cid : Nat) (fuel : Nat) (h : Heap) : IRes :=
  let h0 := setParent h cid (some sid)
  insertLoop sid cid fuel ((h0 sid).next) h0

/-- Outcome of a scheduler member returning an `int` result code. -/
inductive SRes where
  | ret (code : Int) (h : Heap)
  | ub (h : Heap)
  | nofuel (h : Heap)

/-- The result code of an `SRes`, when the call returned normally. -/
def SRes.code : SRes → Option Int
  | .ret c _ => some c
  | _ => none

/-- The heap carried by an `SRes` (final heap, or heap at the fault). -/
def SRes.heap : SRes → Heap
  | .ret _ h => h
  | .ub h => h
  | .nofuel h => h

/-- Whether an `SRes` is the undefined-behaviour outcome. -/
def SRes.isUb : SRes → Bool
  | .ub _ => true
  | _ => false

/-- `Scheduler::Schedule(chore)`: fail with `-1` if `chore->m_parent != 0`;
otherwise `chore->m_targetTime = GetCurrentTime() + chore->m_interval;`
then `Insert(chore);` and return `0`.  `now` is the value of
`GetCurrentTime()` (a `uint32_t`). -/
def schedule (sid cid : Nat) (now : Nat) (fuel : Nat) (h : Heap) : SRes :=
  if (h cid).parent ≠ none then .ret (-1) h
  else
    let h1 := setTarget h cid ((now + (h cid).interval) % U32)
    match insert sid cid fuel h1 with
    | .ok h2 => .ret 0 h2
    | .ub h2 => .ub h2
    | .nofuel h2 => .nofuel h2

/-- `Scheduler::Reschedule(chore)`: fail with `-1` if `chore->m_parent == 0`;
otherwise `chore->m_targetTime += chore->m_interval;` then `Insert(chore);`
and return `0`. -/
def reschedule (sid cid : Nat) (fuel : Nat) (h : Heap) : SRes :=
  if (h cid).parent = none then .ret (-1) h
  else
    let h1 := setTarget h cid (((h cid).targetTime + (h cid).interval) % U32)
    match insert sid cid fuel h1 with
    | .ok h2 => .ret 0 h2
    | .ub h2 => .ub h2
    | .nofuel h2 => .nofuel h2

/-- `Scheduler::AbortChore(chore)`: `if (m_parent != 0) { chore->Remove(); }
chore->m_parent = 0; return 0;`.  The guard reads the scheduler's own
`m_parent` field (the scheduler is itself a `SchedulerChore`), not the
argument's. -/
def schedAbortChore (sid cid : Nat) (h : Heap) : SRes :=
  if (h sid).parent ≠ none then
    match remove cid h with
    | .ub h1 => .ub h1
    | .ok h1 => .ret 0 (setParent h1 cid none)
  else
    .ret 0 (setParent h cid none)

/-- `SchedulerChore::AbortChore()`: delegate to the owner when attached,
otherwise return `-1`. -/
def choreAbortChore (cid : Nat) (h : Heap) : SRes :=
  match (h cid).parent with
  | none => .ret (-1) h
  | some p => schedAbortChore p cid h

/-- Outcome of one `RunScheduler` call: final heap plus the log of chore
addresses whose `Run()` was invoked, in invocation order. -/
inductive DRes where
  | ok (h : Heap) (log : List Nat)
  | ub (h : Heap) (log : List Nat)
  | nofuel (h : Heap) (log : List Nat)

/-- The invocation log carried by a `DRes`. -/
def DRes.log : DRes → List Nat
  | .ok _ l => l
  | .ub _ l => l
  | .nofuel _ l => l

/-- The heap carried by a `DRes`. -/
def DRes.heap : DRes → Heap
  | .ok h _ => h
  | .ub h _ => h
  | .nofuel h _ => h

/-- Whether a `DRes` is the fuel-exhaustion outcome. -/
def DRes.isNofuel : DRes → Bool
  | .nofuel _ _ => true
  | _ => false

/-- Whether a `DRes` is the undefined-behaviour outcome. -/
def DRes.isUb : DRes → Bool
  | .ub _ _ => true
  | _ => false

/-- The `while (1)` loop of `Scheduler::RunScheduler`.  Each iteration reads
the clock once (`clk k` is the `GetCurrentTime()` value at the k-th read),
computes the signed delta of the head's target time, and either dispatches
the head (remove; if still owned: run, then `Reschedule`) or breaks. -/
def runLoop (sid : Nat) (clk : Nat → Nat) : Nat → Nat → Heap → List Nat → DRes
  | 0, _, h, log => .nofuel h log
  | f + 1, k, h, log =>
    match (h sid).next with
    | none => .ub h log
    | some hd =>
      if toInt32 (sub32 (h hd).targetTime (clk k)) ≤ 1 then
        match remove hd h with
        | .ub h1 => .ub h1 log
        | .ok h1 =>
          if (h1 hd).parent ≠ none then
            match reschedule sid hd (f + 1) h1 with
            | .ret _ h2 => runLoop sid clk f (k + 1) h2 (log ++ [hd])
            | .ub h2 => .ub h2 (log ++ [hd])
            | .nofuel h2 => .nofuel h2 (log ++ [hd])
          else
            runLoop sid clk f (k + 1) h1 log
      else
        .ok h log

/-- `Scheduler::RunScheduler()`. -/
def runScheduler (sid : Nat) (clk : Nat → Nat) (fuel : Nat) (h : Heap) : DRes :=
  runLoop sid clk fuel 0 h []

/-- The scan loop of `TimerWrap::Run`:
`for (ptr = m_next; ptr != this; ptr = ptr->m_next) { ptr->m_targetTime &= 0x3fffffff; }`.
It starts from the `TimerWrap`'s own `m_next` field. -/
def twLoop (twId : Nat) : Nat → Option Nat → Heap → IRes
  | 0, _, h => .nofuel h
  | _ + 1, none, h => .ub h
  | f + 1, some p, h =>
    if p = twId then .ok h
    else
      let h1 := setTarget h p ((h p).targetTime &&& MASK30)
      twLoop twId f ((h1 p).next) h1

/-- `TimerWrap::Run()`: `m_targetTime += 0x40000000;` then the mask scan. -/
def timerWrapRun (twId : Nat) (fuel : Nat) (h : Heap) : IRes :=
  let h1 := setTarget h twId (((h twId).targetTime + WRAPC) % U32)
  twLoop twId fuel ((h1 twId).next) h1

/-- The heap carried by an `IRes`. -/
def IRes.heap : IRes → Heap
  | .ok h => h
  | .ub h => h
  | .nofuel h => h

/-- Whether an `IRes` is the undefined-behaviour outcome. -/
def IRes.isUb : IRes → Bool
  | .ub _ => true
  | _ => false

/-- `SchedulerChore::SchedulerChore()`: detached, zero times, null links. -/
def mkChoreDefault : Chore :=
  { parent := none, targetTime := 0, interval := 0, next := none, prev := none }

/-- `SchedulerChore::SchedulerChore(uint32_t inter)`: like the default
constructor but `m_interval = inter` followed by `m_interval &= 0x0fffffff`. -/
def mkChore (inter : Nat) : Chore :=
  { parent := none, targetTime := 0, interval := inter &&& MASK28,
    next := none, prev := none }

/-- `TimerWrap::TimerWrap()`: the default chore with `m_targetTime = 0x40000000`. -/
def mkTimerWrap : Chore :=
  { parent := none, targetTime := WRAPC, interval := 0, next := none, prev := none }

/-- The setter `SchedulerChore::Interval(uint32_t inter)`:
`m_interval = inter & 0x0fffffff`. -/
def intervalSet (c : Chore) (inter : Nat) : Chore :=
  { c with interval := inter &&& MASK28 }

/-- The getter `SchedulerChore::Interval()`. -/
def intervalGet (c : Chore) : Nat := c.interval

/-- `SchedulerChore::~SchedulerChore()`: `m_parent = 0` only; the links are
left untouched. -/
def choreDestruct (cid : Nat) (h : Heap) : Heap := setParent h cid none

/-- Walk the queue along `m_next` starting after the sentinel, collecting
the addresses met before coming back to the sentinel (or hitting null or
running out of fuel): the addresses reachable from scheduler `sid`'s queue. -/
def walkNext (h : Heap) (sid : Nat) : Nat → Option Nat → List Nat
  | 0, _ => []
  | _ + 1, none => []
  | f + 1, some p => if p = sid then [] else p :: walkNext h sid f ((h p).next)

/-- The addresses reachable by walking scheduler `sid`'s queue from its
sentinel node. -/
def reachable (h : Heap) (sid : Nat) (fuel : Nat) : List Nat :=
  walkNext h sid fuel ((h sid).next)

/-- `linked h a xs b`: starting at node `a`, the `next` pointers run through
exactly the nodes of `xs` and then reach `b`, and every hop is mirrored by
the corresponding `prev` pointer. -/
def linked (h : Heap) : Nat → List Nat → Nat → Prop
  | a, [], b => (h a).next = some b ∧ (h b).prev = some a
  | a, x :: xs, b => (h a).next = some x ∧ (h x).prev = some a ∧ linked h x xs b

/-- A well-formed scheduler state: the queue is a circular doubly-linked
list running from the sentinel `sid` through the pairwise-distinct chores
`ids` and back, and the scheduler's own `m_parent` is null (a scheduler is
never itself scheduled). -/
def wf (h : Heap) (sid : Nat) (ids : List Nat) : Prop :=
  linked h sid ids sid ∧ (sid :: ids).Nodup ∧ (h sid).parent = none

/-- Reading another address than the one written by `setNext`. -/
theorem setNext_at_ne (h : Heap) (i : Nat) (v : Option Nat) (j : Nat)
    (hj : j ≠ i) : setNext h i v j = h j := by
  simp [setNext, hj]

/-- Reading the address written by `setNext`. -/
theorem setNext_at_eq (h : Heap) (i : Nat) (v : Option Nat) :
    setNext h i v i = { h i with next := v } := by
  simp [setNext]

/-- Reading another address than the one written by `setPrev`. -/
theorem setPrev_at_ne (h : Heap) (i : Nat) (v : Option Nat) (j : Nat)
    (hj : j ≠ i) : setPrev h i v j = h j := by
  simp [setPrev, hj]

/-- Reading the address written by `setPrev`. -/
theorem setPrev_at_eq (h : Heap) (i : Nat) (v : Option Nat) :
    setPrev h i v i = { h i with prev := v } := by
  simp [setPrev]

/-- Reading another address than the one written by `setParent`. -/
theorem setParent_at_ne (h : Heap) (i : Nat) (v : Option Nat) (j : Nat)
    (hj : j ≠ i) : setParent h i v j = h j := by
  simp [setParent, hj]

/-- Reading the address written by `setParent`. -/
theorem setParent_at_eq (h : Heap) (i : Nat) (v : Option Nat) :
    setParent h i v i = { h i with parent := v } := by
  simp [setParent]

/-- Reading another address than the one written by `setTarget`. -/
theorem setTarget_at_ne (h : Heap) (i : Nat) (v : Nat) (j : Nat)
    (hj : j ≠ i) : setTarget h i v j = h j := by
  simp [setTarget, hj]

/-- Reading the address written by `setTarget`. -/
theorem setTarget_at_eq (h : Heap) (i : Nat) (v : Nat) :
    setTarget h i v i = { h i with targetTime := v } := by
  simp [setTarget]

/-- `setNext` leaves every `prev` field unchanged. -/
theorem setNext_prev (h : Heap) (i : Nat) (v : Option Nat) (j : Nat) :
    (setNext h i v j).prev = (h j).prev := by
  simp only [setNext]; split <;> simp_all

/-- `setNext` leaves every `parent` field unchanged. -/
theorem setNext_parent (h : Heap) (i : Nat) (v : Option Nat) (j : Nat) :
    (setNext h i v j).parent = (h j).parent := by
  simp only [setNext]; split <;> simp_all

/-- `setNext` leaves every `targetTime` field unchanged. -/
theorem setNext_target (h : Heap) (i : Nat) (v : Option Nat) (j : Nat) :
    (setNext h i v j).targetTime = (h j).targetTime := by
  simp only [setNext]; split <;> simp_all

/-- `setNext` leaves every `interval` field unchanged. -/
theorem setNext_interval (h : Heap) (i : Nat) (v : Option Nat) (j : Nat) :
    (setNext h i v j).interval = (h j).interval := by
  simp only [setNext]; split <;> simp_all

/-- `setPrev` leaves every `next` field unchanged. -/
theorem setPrev_next (h : Heap) (i : Nat) (v : Option Nat) (j : Nat) :
    (setPrev h i v j).next = (h j).next := by
  simp only [setPrev]; split <;> simp_all

/-- `setPrev` leaves every `parent` field unchanged. -/
theorem setPrev_parent (h : Heap) (i : Nat) (v : Option Nat) (j : Nat) :
    (setPrev h i v j).parent = (h j).parent := by
  simp only [setPrev]; split <;> simp_all

/-- `setPrev` leaves every `targetTime` field unchanged. -/
theorem setPrev_target (h : Heap) (i : Nat) (v : Option Nat) (j : Nat) :
    (setPrev h i v j).targetTime = (h j).targetTime := by
  simp only [setPrev]; split <;> simp_all

/-- `setPrev` leaves every `interval` field unchanged. -/
theorem setPrev_interval (h : Heap) (i : Nat) (v : Option Nat) (j : Nat) :
    (setPrev h i v j).interval = (h j).interval := by
  simp only [setPrev]; split <;> simp_all

/-- `setParent` leaves every `next` field unchanged. -/
theorem setParent_next (h : Heap) (i : Nat) (v : Option Nat) (j : Nat) :
    (setParent h i v j).next = (h j).next := by
  simp only [setParent]; split <;> simp_all

/-- `setParent` leaves every `prev` field unchanged. -/
theorem setParent_prev (h : Heap) (i : Nat) (v : Option Nat) (j : Nat) :
    (setParent h i v j).prev = (h j).prev := by
  simp only [setParent]; split <;> simp_all

/-- `setParent` leaves every `targetTime` field unchanged. -/
theorem setParent_target (h : Heap) (i : Nat) (v : Option Nat) (j : Nat) :
    (setParent h i v j).targetTime = (h j).targetTime := by
  simp only [setParent]; split <;> simp_all

/-- `setParent` leaves every `interval` field unchanged. -/
theorem setParent_interval (h : Heap) (i : Nat) (v : Option Nat) (j : Nat) :
    (setParent h i v j).interval = (h j).interval := by
  simp only [setParent]; split <;> simp_all

/-- `setTarget` leaves every `next` field unchanged. -/
theorem setTarget_next (h : Heap) (i : Nat) (v : Nat) (j : Nat) :
    (setTarget h i v j).next = (h j).next := by
  simp only [setTarget]; split <;> simp_all

/-- `setTarget` leaves every `prev` field unchanged. -/
theorem setTarget_prev (h : Heap) (i : Nat) (v : Nat) (j : Nat) :
    (setTarget h i v j).prev = (h j).prev := by
  simp only [setTarget]; split <;> simp_all

/-- `setTarget` leaves every `parent` field unchanged. -/
theorem setTarget_parent (h : Heap) (i : Nat) (v : Nat) (j : Nat) :
    (setTarget h i v j).parent = (h j).parent := by
  simp only [setTarget]; split <;> simp_all

/-- `setTarget` leaves every `interval` field unchanged. -/
theorem setTarget_interval (h : Heap) (i : Nat) (v : Nat) (j : Nat) :
    (setTarget h i v j).interval = (h j).interval := by
  simp only [setTarget]; split <;> simp_all

/-- `linked` only looks at the `next` fields of the nodes on the chain and
the `prev` fields of the nodes hopped onto; two heaps agreeing there are
linked the same way. -/
theorem linked_congr (h h2 : Heap) :
    ∀ (xs : List Nat) (a b : Nat),
    (∀ i, i ∈ a :: xs → (h2 i).next = (h i).next) →
    (∀ i, i ∈ xs ∨ i = b → (h2 i).prev = (h i).prev) →
    linked h a xs b → linked h2 a xs b := by
  intro xs
  induction xs with
  | nil =>
    intro a b hn hp hl
    exact ⟨(hn a (by simp)).trans hl.1, (hp b (Or.inr rfl)).trans hl.2⟩
  | cons x xs ih =>
    intro a b hn hp hl
    refine ⟨(hn a (by simp)).trans hl.1, (hp x (Or.inl (by simp))).trans hl.2.1, ?_⟩
    exact ih x b (fun i hi => hn i (by simpa using Or.inr hi))
      (fun i hi => hp i (by rcases hi with hi | hi
                            · exact Or.inl (by simp [hi])
                            · exact Or.inr hi)) hl.2.2

/-- Removing the head of a well-formed queue succeeds, leaves the rest of
the queue well formed, clears the head's links, and touches no `parent`,
`targetTime` or `interval` field. -/
theorem remove_head (h : Heap) (sid x : Nat) (rest : List Nat)
    (hwf : wf h sid (x :: rest)) :
    ∃ h2, remove x h = .ok h2 ∧ wf h2 sid rest ∧
      (h2 x).next = none ∧ (h2 x).prev = none ∧
      (∀ i, (h2 i).parent = (h i).parent) ∧
      (∀ i, (h2 i).targetTime = (h i).targetTime) ∧
      (∀ i, (h2 i).interval = (h i).interval) := by
  obtain ⟨hl, hnd, hpar⟩ := hwf
  obtain ⟨A1, A2, A3⟩ := hl
  have hsidx : sid ∉ x :: rest := (List.nodup_cons.mp hnd).1
  have hxrest : x ∉ rest := (List.nodup_cons.mp (List.nodup_cons.mp hnd).2).1
  have hxsid : x ≠ sid := fun e => hsidx (by simp [e])
  have hsidrest : sid ∉ rest := fun e => hsidx (by simp [e])
  rcases rest with _ | ⟨y, r2⟩
  · obtain ⟨A4, A5⟩ := A3
    refine ⟨setPrev (setNext (setPrev (setNext h sid (some sid)) sid (some sid))
      x none) x none, ?_, ?_, ?_, ?_, ?_, ?_, ?_⟩
    · simp only [remove, A2]
      rw [setNext_at_ne h sid _ x hxsid, A4]
      simp only []
      rw [A2]
    · refine ⟨⟨?_, ?_⟩, by simp, ?_⟩
      · rw [setPrev_next, setNext_at_ne _ _ _ _ (Ne.symm hxsid),
          setPrev_at_eq, setNext_at_eq]
      · rw [setPrev_at_ne _ _ _ _ (Ne.symm hxsid), setNext_prev,
          setPrev_at_eq]
      · rw [setPrev_parent, setNext_parent, setPrev_parent, setNext_parent, hpar]
    · rw [setPrev_next, setNext_at_eq]
    · rw [setPrev_at_eq]
    · intro i
      rw [setPrev_parent, setNext_parent, setPrev_parent, setNext_parent]
    · intro i
      rw [setPrev_target, setNext_target, setPrev_target, setNext_target]
    · intro i
      rw [setPrev_interval, setNext_interval, setPrev_interval, setNext_interval]
  · obtain ⟨A4, A5, A6⟩ := A3
    have hysid : y ≠ sid := fun e => hsidrest (by simp [e])
    have hyx : y ≠ x := fun e => hxrest (by simp [e])
    have hsidr2 : sid ∉ r2 := fun e => hsidrest (by simp [e])
    have hxr2 : x ∉ r2 := fun e => hxrest (by simp [e])
    have hyr2 : y ∉ r2 := (List.nodup_cons.mp
      (List.nodup_cons.mp (List.nodup_cons.mp hnd).2).2).1
    refine ⟨setPrev (setNext (setPrev (setNext h sid (some y)) y (some sid))
      x none) x none, ?_, ?_, ?_, ?_, ?_, ?_, ?_⟩
    · simp only [remove, A2]
      rw [setNext_at_ne h sid _ x hxsid, A4]
      simp only []
      rw [A2]
    · refine ⟨⟨?_, ?_, ?_⟩, ?_, ?_⟩
      · rw [setPrev_next, setNext_at_ne _ _ _ _ (Ne.symm hxsid),
          setPrev_next, setNext_at_eq]
      · rw [setPrev_at_ne _ _ _ _ hyx, setNext_prev, setPrev_at_eq]
      · refine linked_congr h _ r2 y sid ?_ ?_ A6
        · intro i hi
          rcases List.mem_cons.mp hi with rfl | hir
          · rw [setPrev_next, setNext_at_ne _ _ _ _ hyx, setPrev_next,
              setNext_at_ne _ _ _ _ hysid]
          · have hisid : i ≠ sid := fun e => hsidr2 (e ▸ hir)
            have hix : i ≠ x := fun e => hxr2 (e ▸ hir)
            rw [setPrev_next, setNext_at_ne _ _ _ _ hix, setPrev_next,
              setNext_at_ne _ _ _ _ hisid]
        · intro i hi
          have hiy : i ≠ y := by
            rcases hi with hir | rfl
            · exact fun e => hyr2 (e ▸ hir)
            · exact fun e => hysid e.symm
          have hix : i ≠ x := by
            rcases hi with hir | rfl
            · exact fun e => hxr2 (e ▸ hir)
            · exact fun e => hxsid e.symm
          rw [setPrev_at_ne _ _ _ _ hix, setNext_prev,
            setPrev_at_ne _ _ _ _ hiy, setNext_prev]
      · have h1 := List.nodup_cons.mp hnd
        have h2 := List.nodup_cons.mp h1.2
        refine List.nodup_cons.mpr ⟨?_, h2.2⟩
        intro hc
        rcases List.mem_cons.mp hc with hc1 | hc2
        · exact hysid hc1.symm
        · exact hsidr2 hc2
      · rw [setPrev_parent, setNext_parent, setPrev_parent, setNext_parent, hpar]
    · rw [setPrev_next, setNext_at_eq]
    · rw [setPrev_at_eq]
    · intro i
      rw [setPrev_parent, setNext_parent, setPrev_parent, setNext_parent]
    · intro i
      rw [setPrev_target, setNext_target, setPrev_target, setNext_target]
    · intro i
      rw [setPrev_interval, setNext_interval, setPrev_interval, setNext_interval]

/-- `chore->InsertBefore(q)` on a chore whose `m_prev` is null faults at
`this->m_prev->m_next = c`, after the two writes into `q`. -/
theorem insertBefore_ub_of_detached (c q : Nat) (h : Heap)
    (hcq : c ≠ q) (hp : (h c).prev = none) :
    ∃ h2, insertBefore c q h = .ub h2 ∧
      (∀ i, (h2 i).targetTime = (h i).targetTime) ∧
      (∀ i, (h2 i).parent = (h i).parent) := by
  refine ⟨setPrev (setNext h q (some c)) q none, ?_, ?_, ?_⟩
  · simp only [insertBefore, setPrev_at_ne _ _ _ _ hcq, setNext_prev, hp]
  · intro i
    rw [setPrev_target, setNext_target]
  · intro i
    rw [setPrev_parent, setNext_parent]

/-- The tail insertion `chore->InsertBefore(this)` of the `Insert` scan
faults when the chore's `m_prev` is null. -/
theorem insertLoop_at_sid_ub (sid c : Nat) (h : Heap) (f : Nat)
    (hc : c ≠ sid) (hp : (h c).prev = none) (hf : 1 ≤ f) :
    ∃ h2, insertLoop sid c f (some sid) h = .ub h2 ∧
      (∀ i, (h2 i).targetTime = (h i).targetTime) ∧
      (∀ i, (h2 i).parent = (h i).parent) := by
  obtain ⟨f2, rfl⟩ : ∃ f2, f = f2 + 1 := ⟨f - 1, by omega⟩
  obtain ⟨h2, he, ht, hpr⟩ := insertBefore_ub_of_detached c sid h hc hp
  refine ⟨h2, ?_, ht, hpr⟩
  simp only [insertLoop, he]
  simp

/-- Scanning the queue from any node on it, the `Insert` loop applied to a
chore whose `m_prev` is null always ends in the null-pointer fault of
`InsertBefore`, whichever branch it takes. -/
theorem insertLoop_walk_ub (sid c : Nat) :
    ∀ (ids : List Nat) (q : Nat) (h : Heap) (f : Nat),
    linked h q ids sid → sid ∉ q :: ids → c ∉ q :: ids → c ≠ sid →
    (h c).prev = none → ids.length + 2 ≤ f →
    ∃ h2, insertLoop sid c f (some q) h = .ub h2 ∧
      (∀ i, (h2 i).targetTime = (h i).targetTime) ∧
      (∀ i, (h2 i).parent = (h i).parent) := by
  intro ids
  induction ids with
  | nil =>
    intro q h f hl hsid hc hcs hp hf
    obtain ⟨f2, rfl⟩ : ∃ f2, f = f2 + 1 := ⟨f - 1, by omega⟩
    have hqsid : q ≠ sid := fun e => hsid (by simp [e])
    have hcq : c ≠ q := fun e => hc (by simp [e])
    by_cases hlt : (h c).targetTime < (h q).targetTime
    · obtain ⟨h2, he, ht, hpr⟩ := insertBefore_ub_of_detached c q h hcq hp
      refine ⟨h2, ?_, ht, hpr⟩
      simp only [insertLoop, if_neg hqsid, if_pos hlt, he]
    · obtain ⟨h2, he, ht, hpr⟩ := insertLoop_at_sid_ub sid c h f2 hcs hp (by omega)
      refine ⟨h2, ?_, ht, hpr⟩
      simp only [insertLoop, if_neg hqsid, if_neg hlt, hl.1, he]
  | cons a rest ih =>
    intro q h f hl hsid hc hcs hp hf
    obtain ⟨f2, rfl⟩ : ∃ f2, f = f2 + 1 := ⟨f - 1, by simp at hf; omega⟩
    have hqsid : q ≠ sid := fun e => hsid (by simp [e])
    have hcq : c ≠ q := fun e => hc (by simp [e])
    by_cases hlt : (h c).targetTime < (h q).targetTime
    · obtain ⟨h2, he, ht, hpr⟩ := insertBefore_ub_of_detached c q h hcq hp
      refine ⟨h2, ?_, ht, hpr⟩
      simp only [insertLoop, if_neg hqsid, if_pos hlt, he]
    · obtain ⟨h2, he, ht, hpr⟩ := ih a h f2 hl.2.2
        (fun e => hsid (by simpa using Or.inr (List.mem_cons.mp e)))
        (fun e => hc (by simpa using Or.inr (List.mem_cons.mp e)))
        hcs hp (by simp at hf ⊢; omega)
      refine ⟨h2, ?_, ht, hpr⟩
      simp only [insertLoop, if_neg hqsid, if_neg hlt, hl.1, he]

/-- `Scheduler::Insert` applied to a chore whose `m_prev` is null (the state
of every freshly constructed or just-removed chore) on a well-formed queue
always faults; the fault heap keeps the chore's target time, and its owner
was already set by the first line of `Insert`. -/
theorem insert_ub_of_detached (sid c : Nat) (ids : List Nat) (h : Heap) (f : Nat)
    (hl : linked h sid ids sid) (hnd : (sid :: ids).Nodup)
    (hc : c ∉ sid :: ids) (hp : (h c).prev = none) (hf : ids.length + 2 ≤ f) :
    ∃ h2, insert sid c f h = .ub h2 ∧
      (h2 c).targetTime = (h c).targetTime ∧ (h2 c).parent = some sid := by
  have hcs : c ≠ sid := fun e => hc (by simp [e])
  have hl0 : linked (setParent h c (some sid)) sid ids sid :=
    linked_congr h _ ids sid sid (fun i _ => setParent_next h c (some sid) i)
      (fun i _ => setParent_prev h c (some sid) i) hl
  have hp0 : ((setParent h c (some sid)) c).prev = none := by
    rw [setParent_prev]; exact hp
  have hnext0 : ((setParent h c (some sid)) sid).next = (h sid).next :=
    setParent_next h c (some sid) sid
  rcases ids with _ | ⟨a, rest⟩
  · obtain ⟨h2, he, ht, hpr⟩ :=
      insertLoop_at_sid_ub sid c (setParent h c (some sid)) f hcs hp0 (by omega)
    refine ⟨h2, ?_, ?_, ?_⟩
    · simp only [insert, hl0.1]
      exact he
    · rw [ht, setParent_target]
    · rw [hpr, setParent_at_eq]
  · obtain ⟨h2, he, ht, hpr⟩ :=
      insertLoop_walk_ub sid c rest a (setParent h c (some sid)) f hl0.2.2
        (fun e => (List.nodup_cons.mp hnd).1 e)
        (fun e => hc (by simpa using Or.inr (List.mem_cons.mp e)))
        hcs hp0 (by simp at hf ⊢; omega)
    refine ⟨h2, ?_, ?_, ?_⟩
    · simp only [insert, hl0.1]
      exact he
    · rw [ht, setParent_target]
    · rw [hpr, setParent_at_eq]

/-- `Remove()` on a node that is its own neighbour (the sentinel of an
empty queue) succeeds and nulls its own links. -/
theorem remove_self_empty (h : Heap) (sid : Nat)
    (hn : (h sid).next = some sid) (hp : (h sid).prev = some sid) :
    ∃ h2, remove sid h = .ok h2 ∧ (h2 sid).next = none ∧
      (∀ i, (h2 i).parent = (h i).parent) := by
  refine ⟨setPrev (setNext (setPrev (setNext h sid (some sid)) sid (some sid))
    sid none) sid none, ?_, ?_, ?_⟩
  · simp [remove, hp, hn, setNext_at_eq, setNext_prev]
  · rw [setPrev_next, setNext_at_eq]
  · intro i
    rw [setPrev_parent, setNext_parent, setPrev_parent, setNext_parent]

/-- On a well-formed queue, each `RunScheduler` iteration either breaks,
dispatches an orphaned head and shortens the queue, or dispatches an owned
head and immediately hits the `Insert` fault: with `ids.length + 2` units
of fuel the loop always reaches one of its exits, so the fuel bound is
never the reason it stops. -/
theorem runLoop_no_nofuel (sid : Nat) (clk : Nat → Nat) :
    ∀ (ids : List Nat) (h : Heap) (f k : Nat) (log : List Nat),
    wf h sid ids → ids.length + 2 ≤ f →
    (runLoop sid clk f k h log).isNofuel = false := by
  intro ids
  induction ids with
  | nil =>
    intro h f k log hwf hf
    obtain ⟨f2, rfl⟩ : ∃ f2, f = f2 + 1 := ⟨f - 1, by omega⟩
    obtain ⟨hl, hnd, hpar⟩ := hwf
    simp only [runLoop, hl.1]
    by_cases hd : toInt32 (sub32 (h sid).targetTime (clk k)) ≤ 1
    · rw [if_pos hd]
      obtain ⟨h2, hrem, hn2, hpar2⟩ := remove_self_empty h sid hl.1 hl.2
      simp only [hrem]
      rw [if_neg (by simp [hpar2, hpar])]
      obtain ⟨f3, rfl⟩ : ∃ f3, f2 = f3 + 1 := ⟨f2 - 1, by omega⟩
      simp only [runLoop, hn2]
      rfl
    · rw [if_neg hd]
      rfl
  | cons x rest ih =>
    intro h f k log hwf hf
    obtain ⟨f2, rfl⟩ : ∃ f2, f = f2 + 1 := ⟨f - 1, by omega⟩
    obtain ⟨hl, hnd, hpar⟩ := hwf
    have hsx : sid ≠ x := fun e => (List.nodup_cons.mp hnd).1 (by simp [e])
    have hxrest : x ∉ rest := (List.nodup_cons.mp (List.nodup_cons.mp hnd).2).1
    simp only [runLoop, hl.1]
    by_cases hd : toInt32 (sub32 (h x).targetTime (clk k)) ≤ 1
    · rw [if_pos hd]
      obtain ⟨h2, hrem, hwf2, hnx, hpx, hparx, htarx, hintx⟩ :=
        remove_head h sid x rest ⟨hl, hnd, hpar⟩
      simp only [hrem]
      by_cases hown : (h2 x).parent ≠ none
      · rw [if_pos hown]
        have hxnotin : x ∉ sid :: rest := by
          intro e
          rcases List.mem_cons.mp e with e1 | e2
          · exact hsx e1.symm
          · exact hxrest e2
        have hl3 : linked (setTarget h2 x (((h2 x).targetTime + (h2 x).interval) % U32))
            sid rest sid :=
          linked_congr h2 _ rest sid sid (fun i _ => setTarget_next h2 x _ i)
            (fun i _ => setTarget_prev h2 x _ i) hwf2.1
        obtain ⟨h3, hins, hins2, hins3⟩ := insert_ub_of_detached sid x rest
          (setTarget h2 x (((h2 x).targetTime + (h2 x).interval) % U32)) (f2 + 1)
          hl3 hwf2.2.1 hxnotin (by rw [setTarget_prev]; exact hpx)
          (by simp at hf ⊢; omega)
        have hresch : reschedule sid x (f2 + 1) h2 = .ub h3 := by
          simp only [reschedule, if_neg hown, hins]
        simp only [hresch]
        rfl
      · rw [if_neg hown]
        exact ih h2 f2 (k + 1) log hwf2 (by simp at hf ⊢; omega)
    · rw [if_neg hd]
      rfl

/-- The state of a scheduler object in its constructor right after
`m_next = this; m_prev = this; m_baseTime = millis();`, about to run
`Schedule(&m_timerWrap)`: sentinel at address 0 with an empty circular
queue, the member `m_timerWrap` at address 1 as `TimerWrap`'s constructor
left it. -/
def hCtor : Heap := fun i =>
  if i = 0 then { parent := none, targetTime := 0, interval := 0,
                  next := some 0, prev := some 0 }
  else if i = 1 then mkTimerWrap
  else mkChoreDefault

/-- A well-formed scheduler state: sentinel at address 0 and one owned
chore at address 1, registered at relative time 0 with interval 5, so its
due time is 5; address 2 holds a detached default chore. -/
def hOne : Heap := fun i =>
  if i = 0 then { parent := none, targetTime := 0, interval := 0,
                  next := some 1, prev := some 1 }
  else if i = 1 then { parent := some 0, targetTime := 5, interval := 5,
                       next := some 0, prev := some 0 }
  else mkChoreDefault

/-- A well-formed scheduler state whose single owned chore (address 1) is
long overdue: due time 0, interval 10. -/
def hLate : Heap := fun i =>
  if i = 0 then { parent := none, targetTime := 0, interval := 0,
                  next := some 1, prev := some 1 }
  else if i = 1 then { parent := some 0, targetTime := 0, interval := 10,
                       next := some 0, prev := some 0 }
  else mkChoreDefault

/-- A scheduler state with an empty queue (sentinel at address 0) and a
fresh detached chore at address 2 constructed with interval 7. -/
def hFresh : Heap := fun i =>
  if i = 0 then { parent := none, targetTime := 0, interval := 0,
                  next := some 0, prev := some 0 }
  else if i = 2 then mkChore 7
  else mkChoreDefault

/-- The state seen by `TimerWrap::Run` when the dispatcher invokes it: the
`TimerWrap` (address 1) has just been removed from the queue (its links are
null), while the sentinel (address 0) still holds one queued chore at
address 2 whose due time has grown past 2^30. -/
def hWrap : Heap := fun i =>
  if i = 0 then { parent := none, targetTime := 0, interval := 0,
                  next := some 2, prev := some 2 }
  else if i = 1 then { parent := some 0, targetTime := WRAPC, interval := 0,
                       next := none, prev := none }
  else if i = 2 then { parent := some 0, targetTime := 1073741830, interval := 7,
                       next := some 0, prev := some 0 }
  else mkChoreDefault

/-- The concrete state `hOne` is well formed. -/
theorem wf_hOne : wf hOne 0 [1] := by
  refine ⟨?_, ?_, ?_⟩
  · show (hOne 0).next = some 1 ∧ (hOne 1).prev = some 0 ∧
      (hOne 1).next = some 0 ∧ (hOne 0).prev = some 1
    exact ⟨rfl, rfl, rfl, rfl⟩
  · decide
  · rfl

/-- C1: the insertion path never places a task before the first
strictly-later queued task.  Already on the very first insertion the code
performs (`Schedule(&m_timerWrap)` into the empty queue, from the
scheduler's own constructor), the swapped-role `InsertBefore` writes
through the new chore's null `m_prev` pointer (undefined behaviour), and
the heap at the fault is not a circular queue at all: the sentinel's
`m_prev` is null and the inserted chore's `m_next` is null.  No call ever
establishes the claimed sorted circular order. -/
theorem C1_insert_corrupts_queue :
    (schedule 0 1 0 5 hCtor).isUb = true ∧
    ((schedule 0 1 0 5 hCtor).heap 0).next = some 1 ∧
    ((schedule 0 1 0 5 hCtor).heap 0).prev = none ∧
    ((schedule 0 1 0 5 hCtor).heap 1).next = none :=
  ⟨rfl, rfl, rfl, rfl⟩

/-- C2 counterexample: the chore at address 1 of `hOne` was registered at
relative time T = 0 with interval I = 5, so T + I = 5; a dispatch whose
clock reads 4 (< T + I) already invokes its `Run`, because the code fires
the head at signed delta <= 1, one millisecond before `now() >= T + I`. -/
theorem C2_fires_early_cex :
    (runScheduler 0 (fun _ => 4) 6 hOne).log = [1] ∧ (4 : Nat) < 5 :=
  ⟨rfl, by omega⟩

/-- C2 (amended): on a well-formed queue whose head chore is owned by the
scheduler, a dispatch at clock value `n` invokes the head's `Run` exactly
when the signed 32-bit delta `dueTime - n` is at most 1 — that is, already
at `now() = T+I-1`, not first at `now() >= T+I` — and when it runs, its due
time in the resulting state is its old due time plus its interval modulo
2^32 (T+2I, not `now()+I`). -/
theorem C2_fires_iff_delta_le_one (h : Heap) (sid c : Nat) (rest : List Nat)
    (n f : Nat) (hwf : wf h sid (c :: rest)) (hown : (h c).parent = some sid)
    (hf : rest.length + 3 ≤ f) :
    (c ∈ (runScheduler sid (fun _ => n) f h).log ↔
      toInt32 (sub32 (h c).targetTime n) ≤ 1) ∧
    (toInt32 (sub32 (h c).targetTime n) ≤ 1 →
      (runScheduler sid (fun _ => n) f h).log = [c] ∧
      ((runScheduler sid (fun _ => n) f h).heap c).targetTime =
        ((h c).targetTime + (h c).interval) % U32) := by
  obtain ⟨f2, rfl⟩ : ∃ f2, f = f2 + 1 := ⟨f - 1, by omega⟩
  have hl := hwf.1
  have hnd := hwf.2.1
  have hsx : sid ≠ c := fun e => (List.nodup_cons.mp hnd).1 (by simp [e])
  have hcrest : c ∉ rest := (List.nodup_cons.mp (List.nodup_cons.mp hnd).2).1
  have hcnotin : c ∉ sid :: rest := by
    intro e
    rcases List.mem_cons.mp e with e1 | e2
    · exact hsx e1.symm
    · exact hcrest e2
  by_cases hd : toInt32 (sub32 (h c).targetTime n) ≤ 1
  · obtain ⟨h2, hrem, hwf2, hnx, hpx, hparx, htarx, hintx⟩ :=
      remove_head h sid c rest hwf
    have hown2 : (h2 c).parent = some sid := by rw [hparx, hown]
    have hl3 : linked (setTarget h2 c (((h2 c).targetTime + (h2 c).interval) % U32))
        sid rest sid :=
      linked_congr h2 _ rest sid sid (fun i _ => setTarget_next h2 c _ i)
        (fun i _ => setTarget_prev h2 c _ i) hwf2.1
    obtain ⟨h3, hins, hins2, hins3⟩ := insert_ub_of_detached sid c rest
      (setTarget h2 c (((h2 c).targetTime + (h2 c).interval) % U32)) (f2 + 1)
      hl3 hwf2.2.1 hcnotin (by rw [setTarget_prev]; exact hpx)
      (by simp at hf ⊢; omega)
    have hngu : ¬((h2 c).parent = none) := by rw [hown2]; simp
    have hgu : (h2 c).parent ≠ none := hngu
    have hresch : reschedule sid c (f2 + 1) h2 = .ub h3 := by
      simp only [reschedule, if_neg hngu, hins]
    have hrun : runScheduler sid (fun _ => n) (f2 + 1) h = .ub h3 [c] := by
      simp only [runScheduler, runLoop, hl.1, if_pos hd, hrem, if_pos hgu, hresch]
      rfl
    rw [hrun]
    have htar : (h3 c).targetTime = ((h c).targetTime + (h c).interval) % U32 := by
      rw [hins2, setTarget_at_eq]
      rw [htarx, hintx]
    exact ⟨by simp [DRes.log, hd], fun _ => ⟨rfl, htar⟩⟩
  · have hrun : runScheduler sid (fun _ => n) (f2 + 1) h = .ok h [] := by
      simp only [runScheduler, runLoop, hl.1, if_neg hd]
    rw [hrun]
    exact ⟨by simp [DRes.log, hd], fun hcon => absurd hcon hd⟩

/-- C2 witness: the amended firing theorem applied to `hOne` (T = 0, I = 5)
at clock value 4 = T+I-1. -/
theorem C2_fires_iff_delta_le_one_witness :
    (1 ∈ (runScheduler 0 (fun _ => 4) 3 hOne).log ↔
      toInt32 (sub32 (hOne 1).targetTime 4) ≤ 1) ∧
    (toInt32 (sub32 (hOne 1).targetTime 4) ≤ 1 →
      (runScheduler 0 (fun _ => 4) 3 hOne).log = [1] ∧
      ((runScheduler 0 (fun _ => 4) 3 hOne).heap 1).targetTime =
        ((hOne 1).targetTime + (hOne 1).interval) % U32) :=
  C2_fires_iff_delta_le_one hOne 0 1 [] 4 3 wf_hOne rfl (by simp)

/-- C3: at the failing input (single owned chore with due time 0 and
interval 10, dispatched at relative time 100, ten intervals late) the
chore's `Run` is invoked once and its due time is advanced to
old + interval = 10 (still in the past), but the dispatch call then faults
on the null-pointer write inside the reinsertion instead of completing the
pass; and because the `while (1)` loop re-examines the head after every
reinsertion, a still-due rescheduled head would be run again within the
same call were the insertion performing its documented linking. -/
theorem C3_catchup_faults :
    (runScheduler 0 (fun _ => 100) 8 hLate).log = [1] ∧
    (runScheduler 0 (fun _ => 100) 8 hLate).isUb = true ∧
    ((runScheduler 0 (fun _ => 100) 8 hLate).heap 1).targetTime = 10 :=
  ⟨rfl, rfl, rfl⟩

/-- C4: aborting the owned, queued chore at address 1 returns 0 and clears
its owner but does NOT unlink it — `Scheduler::AbortChore` tests its own
`m_parent` (always null) instead of the chore's, so `chore->Remove()` is
dead code and both the sentinel's `m_next` and the chore's links still
form the old queue; a second abort and an abort of a detached chore fail
with -1 as claimed, and a later dispatch removes the orphan without
invoking its `Run`. -/
theorem C4_abort_leaves_chore_linked :
    (choreAbortChore 1 hOne).code = some 0 ∧
    ((choreAbortChore 1 hOne).heap 1).parent = none ∧
    ((choreAbortChore 1 hOne).heap 1).next = some 0 ∧
    ((choreAbortChore 1 hOne).heap 0).next = some 1 ∧
    (choreAbortChore 1 ((choreAbortChore 1 hOne).heap)).code = some (-1) ∧
    (choreAbortChore 2 hOne).code = some (-1) ∧
    (runScheduler 0 (fun _ => 100) 6 ((choreAbortChore 1 hOne).heap)).log = [] :=
  ⟨rfl, rfl, rfl, rfl, rfl, rfl, rfl⟩

/-- C5: scheduling the already-owned chore 1 fails with -1 and no mutation,
exactly as claimed; but on the success path (fresh chore 2, interval 7,
now = 50) the call sets the due time to now + interval = 57 and the owner
to the scheduler and then faults on the null `m_prev` write inside
`Insert`, so the success code 0 is never returned. -/
theorem C5_schedule_success_path_faults :
    schedule 0 1 50 5 hOne = .ret (-1) hOne ∧
    (schedule 0 2 50 5 hFresh).isUb = true ∧
    (schedule 0 2 50 5 hFresh).code = none ∧
    ((schedule 0 2 50 5 hFresh).heap 2).targetTime = 57 ∧
    ((schedule 0 2 50 5 hFresh).heap 2).parent = some 0 :=
  ⟨rfl, rfl, rfl, rfl, rfl⟩

/-- C6: the `TimerWrap` constructor does set due time 0x40000000 (bit 30)
and its `Run` first advances its own due time by that constant; but the
truncation loop then walks from the TimerWrap's own `m_next`, which is null
because the dispatcher removed it from the queue before calling `Run`, so
it faults without truncating any queued chore (chore 2's due time above
2^30 is unchanged at the fault); moreover the "fixed large initial due
time" is clobbered to now + interval = 0 by the constructor's own
`Schedule(&m_timerWrap)` call before the fault of that call. -/
theorem C6_wrap_guard_faults :
    mkTimerWrap.targetTime = 1073741824 ∧
    Nat.testBit mkTimerWrap.targetTime 30 = true ∧
    (timerWrapRun 1 5 hWrap).isUb = true ∧
    ((timerWrapRun 1 5 hWrap).heap 1).targetTime = 2147483648 ∧
    ((timerWrapRun 1 5 hWrap).heap 2).targetTime = 1073741830 ∧
    ((schedule 0 1 0 5 hCtor).heap 1).targetTime = 0 :=
  ⟨rfl, by decide, rfl, rfl, rfl, rfl⟩

/-- C7: after aborting the owned chore at address 1, its owner field is
`none`, yet it is still reachable by walking the scheduler's queue from the
sentinel — the claimed equivalence between ownership and reachability is
broken by every abort of a queued chore. -/
theorem C7_owner_iff_reachable_fails :
    ((choreAbortChore 1 hOne).heap 1).parent = none ∧
    1 ∈ reachable ((choreAbortChore 1 hOne).heap) 0 5 :=
  ⟨rfl, by decide⟩

/-- C8: on any well-formed scheduler state and for every behaviour of the
clock, a single dispatch call reaches one of its exits within
`ids.length + 2` loop iterations (the fuel bound is never what stops it:
there is no unbounded spinning, blocking or sleeping in the loop), and when
the queue head is not yet due at the first clock reading the call returns
immediately with the state untouched and nothing run. -/
theorem C8_dispatch_terminates (h : Heap) (sid : Nat) (ids : List Nat)
    (clk : Nat → Nat) (f : Nat) (hwf : wf h sid ids)
    (hf : ids.length + 2 ≤ f) :
    (runScheduler sid clk f h).isNofuel = false ∧
    (∀ hd, (h sid).next = some hd →
      1 < toInt32 (sub32 (h hd).targetTime (clk 0)) →
      runScheduler sid clk f h = .ok h []) := by
  constructor
  · exact runLoop_no_nofuel sid clk ids h f 0 [] hwf hf
  · intro hd hn hgt
    obtain ⟨f2, rfl⟩ : ∃ f2, f = f2 + 1 := ⟨f - 1, by omega⟩
    have hngt : ¬(toInt32 (sub32 (h hd).targetTime (clk 0)) ≤ 1) := by omega
    simp only [runScheduler, runLoop, hn, if_neg hngt]

/-- C8 witness: the termination theorem applied to the concrete one-chore
state `hOne` (head due at 5) with the clock constantly 3. -/
theorem C8_dispatch_terminates_witness :
    (runScheduler 0 (fun _ => 3) 3 hOne).isNofuel = false ∧
    (∀ hd, (hOne 0).next = some hd →
      1 < toInt32 (sub32 (hOne hd).targetTime 3) →
      runScheduler 0 (fun _ => 3) 3 hOne = .ok hOne []) :=
  C8_dispatch_terminates hOne 0 [1] (fun _ => 3) 3 wf_hOne (by simp)

/-- C9: `setInterval(v)` followed by `getInterval()` returns the low 28
bits `v & (2^28 - 1)` (equal to `v % 2^28`): values at or above 2^28 are
silently truncated, not rejected or saturated, and the interval-taking
constructor applies the same mask. -/
theorem C9_interval_mask (c : Chore) (v : Nat) (hv : v < U32) :
    intervalGet (intervalSet c v) = v &&& (2 ^ 28 - 1) ∧
    (mkChore v).interval = v &&& (2 ^ 28 - 1) ∧
    v &&& (2 ^ 28 - 1) = v % 2 ^ 28 := by
  refine ⟨?_, ?_, Nat.and_pow_two_sub_one_eq_mod v 28⟩
  · show (v &&& MASK28) = v &&& (2 ^ 28 - 1)
    norm_num [MASK28]
  · show (v &&& MASK28) = v &&& (2 ^ 28 - 1)
    norm_num [MASK28]

/-- C9 witness: the truncation law at the 32-bit value 2^28 + 42. -/
theorem C9_interval_mask_witness :
    intervalGet (intervalSet mkChoreDefault 268435498) =
      268435498 &&& (2 ^ 28 - 1) ∧
    (mkChore 268435498).interval = 268435498 &&& (2 ^ 28 - 1) ∧
    268435498 &&& (2 ^ 28 - 1) = 268435498 % 2 ^ 28 :=
  C9_interval_mask mkChoreDefault 268435498 (by norm_num [U32])

/-- C10: each failing operation returns its error code before any mutation:
`Schedule` on an owned chore, a detached chore's self-abort, and
`Reschedule` on an unowned chore all return -1 with the heap — every
chore's owner, due time, interval and links, hence the whole queue —
exactly as passed in. -/
theorem C10_fail_no_mutation (h : Heap) (sid cid now f : Nat) :
    ((h cid).parent ≠ none → schedule sid cid now f h = .ret (-1) h) ∧
    ((h cid).parent = none → choreAbortChore cid h = .ret (-1) h) ∧
    ((h cid).parent = none → reschedule sid cid f h = .ret (-1) h) := by
  refine ⟨?_, ?_, ?_⟩
  · intro hp
    simp only [schedule, if_pos hp]
  · intro hp
    simp only [choreAbortChore, hp]
  · intro hp
    simp only [reschedule, if_pos hp]

/-- C10 witness: the no-mutation theorem applied to `hOne`: scheduling the
owned chore 1 and self-aborting or rescheduling the detached chore 2. -/
theorem C10_fail_no_mutation_witness :
    schedule 0 1 99 3 hOne = .ret (-1) hOne ∧
    choreAbortChore 2 hOne = .ret (-1) hOne ∧
    reschedule 0 2 3 hOne = .ret (-1) hOne :=
  ⟨(C10_fail_no_mutation hOne 0 1 99 3).1 (by decide),
   (C10_fail_no_mutation hOne 0 2 99 3).2.1 rfl,
   (C10_fail_no_mutation hOne 0 2 99 3).2.2 rfl⟩

end ArduinoSched
